import Mathlib

/-!
Verification of the ONNX-graph manipulation demonstrated by the FINN tutorial
notebooks: the simple Add/Abs/Round example graph, the adder-identification and
adder-pair helpers, the Add+Add to Sum fusion rewrite, execution equivalence of
the rewrite, the tidy-up (normalization) passes, the serialization round-trip,
and the bipolar input preprocessing of the MLP verification notebook.
-/

namespace EdgeAI

/-- Element datatype of a tensor: a fixed enumeration including float, the
bipolar type used by the MLP model, and signed/unsigned integer widths. -/
inductive DataType where
  | FLOAT32 : DataType
  | BIPOLAR : DataType
  | INT : Nat → DataType
  | UINT : Nat → DataType
  deriving DecidableEq

/-- A typed attribute value stored in a node's attribute bag. -/
inductive AttrValue where
  | intVal : Int → AttrValue
  | floatVal : Rat → AttrValue
  | stringVal : String → AttrValue
  | intListVal : List Int → AttrValue
  | floatListVal : List Rat → AttrValue
  deriving DecidableEq

/-- A computation node: operator type tag, ordered input tensor names, ordered
output tensor names, node name, and an attribute bag. Mirrors the fields set
by onnx.helper.make_node in the notebook. -/
structure Node where
  op_type : String
  input : List String
  output : List String
  name : String
  attrs : List (String × AttrValue) := []
  deriving DecidableEq

/-- Shape and datatype registration of a named tensor, as created by
onnx.helper.make_tensor_value_info(name, datatype, shape). -/
structure ValueInfo where
  name : String
  dtype : DataType
  shape : List Nat
  deriving DecidableEq

/-- A graph, as created by onnx.helper.make_graph(nodes, name, inputs,
outputs, value_info): an ordered node list, designated input and output
tensors, and registrations of the remaining internal tensors. -/
structure Graph where
  node : List Node
  name : String
  input : List ValueInfo
  output : List ValueInfo
  value_info : List ValueInfo
  deriving DecidableEq

/-- The thin model wrapper around a graph used by the notebooks. -/
structure ModelWrapper where
  graph : Graph
  deriving DecidableEq

/-! ## The example graph of the Basics notebook -/

/-- Add1 = make_node('Add', inputs=['in1','in2'], outputs=['sum1'], name='Add1'). -/
def Add1_node : Node :=
  { op_type := "Add", input := ["in1", "in2"], output := ["sum1"], name := "Add1" }

/-- Add2 = make_node('Add', inputs=['sum1','in3'], outputs=['sum2'], name='Add2'). -/
def Add2_node : Node :=
  { op_type := "Add", input := ["sum1", "in3"], output := ["sum2"], name := "Add2" }

/-- Add3 = make_node('Add', inputs=['abs1','abs1'], outputs=['sum3'], name='Add3'). -/
def Add3_node : Node :=
  { op_type := "Add", input := ["abs1", "abs1"], output := ["sum3"], name := "Add3" }

/-- Abs = make_node('Abs', inputs=['sum2'], outputs=['abs1'], name='Abs'). -/
def Abs_node : Node :=
  { op_type := "Abs", input := ["sum2"], output := ["abs1"], name := "Abs" }

/-- Round = make_node('Round', inputs=['sum3'], outputs=['out1'], name='Round'). -/
def Round_node : Node :=
  { op_type := "Round", input := ["sum3"], output := ["out1"], name := "Round" }

/-- The example graph of the Basics notebook: five nodes over three 4x4 float
inputs, one output, and four registered internal tensors. -/
def simple_graph : Graph :=
  { node := [Add1_node, Add2_node, Abs_node, Add3_node, Round_node]
    name := "simple_graph"
    input := [⟨"in1", DataType.FLOAT32, [4, 4]⟩, ⟨"in2", DataType.FLOAT32, [4, 4]⟩,
      ⟨"in3", DataType.FLOAT32, [4, 4]⟩]
    output := [⟨"out1", DataType.FLOAT32, [4, 4]⟩]
    value_info := [⟨"sum1", DataType.FLOAT32, [4, 4]⟩, ⟨"sum2", DataType.FLOAT32, [4, 4]⟩,
      ⟨"abs1", DataType.FLOAT32, [4, 4]⟩, ⟨"sum3", DataType.FLOAT32, [4, 4]⟩] }

/-- finn_model = ModelWrapper(onnx_model). -/
def finn_model : ModelWrapper := ⟨simple_graph⟩

/-! ## Helper functions written in the Basics notebook -/

/-- get_node_id: scans the node list and stores a running index for every node
name, building the name-to-index dictionary. -/
def get_node_id (model : ModelWrapper) : List (String × Nat) :=
  (model.graph.node.foldl
    (fun acc n => (acc.1 ++ [(n.name, acc.2)], acc.2 + 1))
    (([] : List (String × Nat)), 0)).1

/-- identify_adder_nodes: iterates over all nodes of the model and appends each
node whose operation type is Add to the accumulated list. -/
def identify_adder_nodes (model : ModelWrapper) : List Node :=
  model.graph.node.foldl
    (fun add_nodes n => if n.op_type = "Add" then add_nodes ++ [n] else add_nodes) []

/-- Modelled from the spec: find_consumers is part of the external ModelWrapper
library; the spec describes it as all nodes whose input list contains the
tensor, in graph node order. -/
def find_consumers (model : ModelWrapper) (tensor : String) : List Node :=
  model.graph.node.filter (fun n => n.input.contains tensor)

/-- Modelled from the spec: find_direct_successors is part of the external
ModelWrapper library; the spec describes it as the union, in output-port order
then node order, of the consumers of each of the node's outputs. -/
def find_direct_successors (model : ModelWrapper) (node : Node) : List Node :=
  (node.output.flatMap (fun t => find_consumers model t)).dedup

/-- adder_pair: for each direct successor of the given node whose operation
type is Add, records the pair of the node with that successor. -/
def adder_pair (model : ModelWrapper) (node : Node) : List (Node × Node) :=
  (find_direct_successors model node).foldl
    (fun adder_pairs successor =>
      if successor.op_type = "Add" then adder_pairs ++ [(node, successor)] else adder_pairs)
    []

/-- The pair-detection loop of the notebook: apply adder_pair to every node
returned by identify_adder_nodes and collect all pairs found. -/
def add_pairs_found (model : ModelWrapper) : List (Node × Node) :=
  (identify_adder_nodes model).flatMap (fun n => adder_pair model n)

/-- The pair the notebook selects for substitution: Add1 followed by Add2. -/
def substitute_pair : Node × Node := (Add1_node, Add2_node)

/-- input_list: the fused node's inputs are the inputs of the first matched
node that differ from the second node's first output, followed by the inputs
of the second matched node that differ from the first node's first output.
The position-0 output access of the notebook is rendered with headD. -/
def input_list (pair : Node × Node) : List String :=
  pair.1.input.filter (fun t => t ≠ pair.2.output.headD "") ++
    pair.2.input.filter (fun t => t ≠ pair.1.output.headD "")

/-- sum_output = substitute_pair[1].output[0]. -/
def sum_output : String := substitute_pair.2.output.headD ""

/-- Sum = make_node('Sum', inputs=input_list, outputs=[sum_output], name='Sum'). -/
def Sum_node : Node :=
  { op_type := "Sum", input := input_list substitute_pair, output := [sum_output],
    name := "Sum" }

/-- The splice of the notebook: insert the replacement node at the index of the
first matched node, then remove both matched nodes from the node list. -/
def fuse_adder_pair (g : Graph) (pair : Node × Node) (newNode : Node) : Graph :=
  let node_ind := ((get_node_id ⟨g⟩).lookup pair.1.name).getD 0
  { g with node := ((g.node.insertIdx node_ind newNode).erase pair.1).erase pair.2 }

/-- The rewritten graph of the notebook, with Add1 and Add2 fused into Sum. -/
def simple_graph1 : Graph := fuse_adder_pair simple_graph substitute_pair Sum_node

/-! ## Execution adapter

The notebooks execute graphs through an external backend (onnxruntime and
finn.core.onnx_exec). The adapter below follows the contract of the spec:
nodes are evaluated in graph order, each operator is handed to a pure numeric
backend, every graph input must be supplied, and failures are surfaced as
none. The backend for the example graph interprets the four operator types
the graph uses, elementwise over 4x4 tensors of exact rationals. -/

/-- A concrete 4x4 tensor value, the shape used throughout the example graph. -/
def TensorVal : Type := Fin 4 → Fin 4 → Rat

/-- The numeric backend for the operators of the example graph: elementwise
addition, absolute value, rounding, and the variadic Sum as a left fold of
elementwise additions. Unknown operators or malformed argument lists fail. -/
def onnx_backend (op : String) (args : List TensorVal) : Option TensorVal :=
  match op, args with
  | "Add", [a, b] => some (fun i j => a i j + b i j)
  | "Abs", [a] => some (fun i j => |a i j|)
  | "Round", [a] => some (fun i j => (round (a i j) : Rat))
  | "Sum", a :: rest => some (rest.foldl (fun acc b => fun i j => acc i j + b i j) a)
  | _, _ => none

/-- An execution environment: tensor name to concrete value, newest first. -/
def Env (V : Type) : Type := List (String × V)

/-- Read a list of tensor names from the environment; a single missing tensor
fails the whole read. -/
def lookupAll {V : Type} (env : Env V) : List String → Option (List V)
  | [] => some []
  | a :: l =>
    match List.lookup a env, lookupAll env l with
    | some v, some vs => some (v :: vs)
    | _, _ => none

/-- Modelled from the spec: one step of the execution adapter of spec 4.3.
Reads the node's input tensors from the environment, applies the backend to
the operator type, and binds every output name to the result; a missing input
or a backend failure aborts the execution. -/
def execNode {V : Type} (backend : String → List V → Option V)
    (env : Env V) (n : Node) : Option (Env V) :=
  match lookupAll env n.input with
  | none => none
  | some args =>
    match backend n.op_type args with
    | none => none
    | some res => some (n.output.foldl (fun e t => (t, res) :: e) env)

/-- Modelled from the spec: evaluate a node sequence in graph order,
threading the environment; the first failure aborts. -/
def execNodes {V : Type} (backend : String → List V → Option V) :
    List Node → Env V → Option (Env V)
  | [], env => some env
  | n :: rest, env =>
    match execNode backend env n with
    | none => none
    | some env1 => execNodes backend rest env1

/-- Read the designated output tensors off the final environment, pairing each
output name with its value; a missing output fails. -/
def readOutputs {V : Type} (env : Env V) : List ValueInfo → Option (Env V)
  | [] => some []
  | vi :: outs =>
    match List.lookup vi.name env, readOutputs env outs with
    | some v, some rest => some ((vi.name, v) :: rest)
    | _, _ => none

/-- Modelled from the spec: the execution adapter of spec 4.3. Requires every
graph input to be present in the input map, evaluates the nodes in graph
order, and reads the designated output tensors off the final environment. -/
def execute {V : Type} (backend : String → List V → Option V)
    (g : Graph) (input_dict : Env V) : Option (Env V) :=
  if g.input.all (fun vi => (List.lookup vi.name input_dict).isSome) then
    match execNodes backend g.node input_dict with
    | none => none
    | some env => readOutputs env g.output
  else none

/-- expected_output: the reference function written in the notebook.
sum1 = in1 + in2; sum2 = sum1 + in3; abs1 = absolute(sum2);
sum3 = abs1 + abs1; the result is round(sum3), all elementwise. -/
def expected_output (v1 v2 v3 : TensorVal) : TensorVal :=
  let sum1 : TensorVal := fun i j => v1 i j + v2 i j
  let sum2 : TensorVal := fun i j => sum1 i j + v3 i j
  let abs1 : TensorVal := fun i j => |sum2 i j|
  let sum3 : TensorVal := fun i j => abs1 i j + abs1 i j
  fun i j => (round (sum3 i j) : Rat)

/-! ## Environment agreement off a dead tensor

The fusion rewrite leaves the connecting tensor unbound in the rewritten
execution. The lemmas below show that two environments which agree on every
tensor other than the connecting one stay in agreement through the execution
of any node sequence that never reads it. -/

/-- Two environments agree on every tensor name other than t. -/
def EnvAgree {V : Type} (t : String) (E E1 : Env V) : Prop :=
  ∀ s, s ≠ t → List.lookup s E = List.lookup s E1

/-- Agreement between two optional environments: both failed, or both
succeeded with environments agreeing off t. -/
def OptAgree {V : Type} (t : String) : Option (Env V) → Option (Env V) → Prop
  | none, none => True
  | some F, some F1 => EnvAgree t F F1
  | _, _ => False
/-! ## Normalization passes

The tidy-up transformations applied by the MLP notebook (InferShapes,
FoldConstants, InferDataTypes, ...) live in the external qonnx library; the
spec describes their common contract (idempotent, returning a changed flag)
and describes the datatype-inference pass operationally. The two passes the
spec pins down are modelled here. -/

/-- Modelled from the spec: find_producer of spec 4.1, the node whose output
list contains the tensor, or none. -/
def find_producer (model : ModelWrapper) (tensor : String) : Option Node :=
  model.graph.node.find? (fun n => n.output.contains tensor)

/-- Modelled from the spec: the narrowest datatype implied by a producing
operator; a thresholding node's output becomes the bipolar type, any other
operator leaves the declared datatype in place. -/
def op_implied_dtype (op : String) (declared : DataType) : DataType :=
  if op = "MultiThreshold" then DataType.BIPOLAR else declared

/-- One datatype-inference update of a registered tensor: resolve its datatype
to the one implied by its producer, if it has one. -/
def infer_vi (g : Graph) (vi : ValueInfo) : ValueInfo :=
  match find_producer ⟨g⟩ vi.name with
  | some n => { vi with dtype := op_implied_dtype n.op_type vi.dtype }
  | none => vi

/-- The graph produced by one sweep of datatype inference: every output and
internal tensor resolved to the datatype implied by its producer. -/
def inferGraph (g : Graph) : Graph :=
  { g with
    output := g.output.map (infer_vi g)
    value_info := g.value_info.map (infer_vi g) }

/-- Modelled from the spec: the datatype-inference normalization pass.
Resolves the datatype of every non-input tensor to the one implied by its
producer and reports whether anything changed. -/
def InferDataTypes (g : Graph) : Graph × Bool :=
  (inferGraph g, decide (inferGraph g ≠ g))

/-- Whether a registered tensor is still alive: read or written by some node,
or a designated graph output. -/
def tensor_alive (g : Graph) (t : String) : Bool :=
  g.node.any (fun n => n.input.contains t || n.output.contains t) ||
    g.output.any (fun vi => vi.name == t)

/-- The graph produced by one sweep of the dead-tensor cleanup. -/
def cleanGraph (g : Graph) : Graph :=
  { g with value_info := g.value_info.filter (fun vi => tensor_alive g vi.name) }

/-- Modelled from the spec: the cleanup normalization pass pruning registry
entries of dead intermediate tensors. -/
def RemoveDeadTensors (g : Graph) : Graph × Bool :=
  (cleanGraph g, decide (cleanGraph g ≠ g))

/-! ## The MLP model of the verification notebook -/

/-- The operator types of the 24 nodes of the imported MLP model, in graph
order, as printed by the notebook. -/
def mlp_op_types : List String :=
  ["Add", "Div", "MatMul", "Mul", "Add", "BatchNormalization", "MultiThreshold", "Mul",
   "MatMul", "Mul", "Add", "BatchNormalization", "MultiThreshold", "Mul",
   "MatMul", "Mul", "Add", "BatchNormalization", "MultiThreshold", "Mul",
   "MatMul", "Mul", "Add", "MultiThreshold"]

/-- The tensor names along the sequential MLP chain: global_in, t1 .. t23,
global_out. -/
def mlp_tensor (k : Nat) : String :=
  if k = 0 then "global_in" else if k = 24 then "global_out" else "t" ++ toString k

/-- The node chain of the MLP model: node k consumes the k-th chain tensor and
produces the next one. -/
def mlp_nodes : List Node :=
  mlp_op_types.enum.map (fun kop =>
    { op_type := kop.2, input := [mlp_tensor kop.1], output := [mlp_tensor (kop.1 + 1)],
      name := kop.2 ++ "_" ++ toString kop.1 })

/-- The imported MLP model: bipolar 1x600 input, 1x1 output whose datatype is
still the generic float default before datatype inference; intermediate
shapes are not recorded by the notebook and are left empty. -/
def mlp_graph : Graph :=
  { node := mlp_nodes
    name := "cybsec_mlp"
    input := [⟨"global_in", DataType.BIPOLAR, [1, 600]⟩]
    output := [⟨"global_out", DataType.FLOAT32, [1, 1]⟩]
    value_info := (List.range 23).map (fun k => ⟨mlp_tensor (k + 1), DataType.FLOAT32, []⟩) }

/-- The get_tensor_datatype accessor of the wrapper: the datatype registered
for a tensor name, searching inputs, outputs and internal tensors. -/
def get_tensor_datatype (model : ModelWrapper) (t : String) : Option DataType :=
  ((model.graph.input ++ model.graph.output ++ model.graph.value_info).find?
    (fun vi => vi.name == t)).map (fun vi => vi.dtype)

/-! ## Input preprocessing of inference_with_finn_onnx

The MLP verification notebook feeds 593-element binary row vectors to a model
expecting 600-element bipolar vectors: it first zero-pads the row on the
right with np.pad(current_inp, [(0, 0), (0, 7)]) and then rescales with
2*x - 1. -/

/-- One row of np.pad(current_inp, [(0, 0), (0, 7)]): seven zeros appended. -/
def pad_row (xs : List Int) : List Int := xs ++ List.replicate 7 0

/-- The bipolar rescaling 2*x - 1, elementwise. -/
def to_bipolar (xs : List Int) : List Int := xs.map (fun x => 2 * x - 1)

/-- The preprocessing order of inference_with_finn_onnx: padding first, then
the bipolar rescaling. -/
def finn_preprocess (xs : List Int) : List Int := to_bipolar (pad_row xs)

/-! ## Persisted graph format

onnx.save and onnx.load are external; the spec treats the persisted format as
an opaque serialization contract that must round-trip node order, tensor
names, shapes, datatypes and attribute values exactly. Modelled from the
spec: a flat token stream with length-prefixed lists, one encoder and one
prefix-consuming decoder per constituent. -/

/-- A token of the persisted stream. -/
inductive Tok where
  | tnat : Nat → Tok
  | tint : Int → Tok
  | trat : Rat → Tok
  | tstr : String → Tok
  deriving DecidableEq

/-- Length-prefixed list encoding. -/
def encodeList {α : Type} (enc : α → List Tok) (xs : List α) : List Tok :=
  Tok.tnat xs.length :: xs.flatMap enc

def encodeNat (n : Nat) : List Tok := [Tok.tnat n]

def encodeInt (i : Int) : List Tok := [Tok.tint i]

def encodeRat (q : Rat) : List Tok := [Tok.trat q]

def encodeStr (s : String) : List Tok := [Tok.tstr s]

def encodeDataType : DataType → List Tok
  | DataType.FLOAT32 => [Tok.tnat 0]
  | DataType.BIPOLAR => [Tok.tnat 1]
  | DataType.INT w => [Tok.tnat 2, Tok.tnat w]
  | DataType.UINT w => [Tok.tnat 3, Tok.tnat w]

def encodeAttrValue : AttrValue → List Tok
  | AttrValue.intVal i => Tok.tnat 0 :: encodeInt i
  | AttrValue.floatVal q => Tok.tnat 1 :: encodeRat q
  | AttrValue.stringVal s => Tok.tnat 2 :: encodeStr s
  | AttrValue.intListVal l => Tok.tnat 3 :: encodeList encodeInt l
  | AttrValue.floatListVal l => Tok.tnat 4 :: encodeList encodeRat l

def encodeAttr (a : String × AttrValue) : List Tok :=
  encodeStr a.1 ++ encodeAttrValue a.2

def encodeValueInfo (vi : ValueInfo) : List Tok :=
  encodeStr vi.name ++ encodeDataType vi.dtype ++ encodeList encodeNat vi.shape

def encodeNode (n : Node) : List Tok :=
  encodeStr n.op_type ++ encodeList encodeStr n.input ++ encodeList encodeStr n.output ++
    encodeStr n.name ++ encodeList encodeAttr n.attrs

def encodeGraph (g : Graph) : List Tok :=
  encodeList encodeNode g.node ++ encodeStr g.name ++ encodeList encodeValueInfo g.input ++
    encodeList encodeValueInfo g.output ++ encodeList encodeValueInfo g.value_info

def decodeNat : List Tok → Option (Nat × List Tok)
  | Tok.tnat n :: rest => some (n, rest)
  | _ => none

def decodeInt : List Tok → Option (Int × List Tok)
  | Tok.tint i :: rest => some (i, rest)
  | _ => none

def decodeRat : List Tok → Option (Rat × List Tok)
  | Tok.trat q :: rest => some (q, rest)
  | _ => none

def decodeStr : List Tok → Option (String × List Tok)
  | Tok.tstr s :: rest => some (s, rest)
  | _ => none

/-- Decode exactly k elements off the front of the stream. -/
def decodeListN {α : Type} (dec : List Tok → Option (α × List Tok)) :
    Nat → List Tok → Option (List α × List Tok)
  | 0, ts => some ([], ts)
  | k + 1, ts =>
    match dec ts with
    | none => none
    | some (a, ts1) =>
      match decodeListN dec k ts1 with
      | none => none
      | some (as, ts2) => some (a :: as, ts2)

/-- Decode a length-prefixed list. -/
def decodeList {α : Type} (dec : List Tok → Option (α × List Tok))
    (ts : List Tok) : Option (List α × List Tok) :=
  match decodeNat ts with
  | none => none
  | some (n, ts1) => decodeListN dec n ts1

def decodeDataType : List Tok → Option (DataType × List Tok)
  | Tok.tnat 0 :: rest => some (DataType.FLOAT32, rest)
  | Tok.tnat 1 :: rest => some (DataType.BIPOLAR, rest)
  | Tok.tnat 2 :: Tok.tnat w :: rest => some (DataType.INT w, rest)
  | Tok.tnat 3 :: Tok.tnat w :: rest => some (DataType.UINT w, rest)
  | _ => none

def decodeAttrValue : List Tok → Option (AttrValue × List Tok)
  | Tok.tnat 0 :: ts => (decodeInt ts).map (fun p => (AttrValue.intVal p.1, p.2))
  | Tok.tnat 1 :: ts => (decodeRat ts).map (fun p => (AttrValue.floatVal p.1, p.2))
  | Tok.tnat 2 :: ts => (decodeStr ts).map (fun p => (AttrValue.stringVal p.1, p.2))
  | Tok.tnat 3 :: ts => (decodeList decodeInt ts).map (fun p => (AttrValue.intListVal p.1, p.2))
  | Tok.tnat 4 :: ts => (decodeList decodeRat ts).map (fun p => (AttrValue.floatListVal p.1, p.2))
  | _ => none

def decodeAttr (ts : List Tok) : Option ((String × AttrValue) × List Tok) :=
  match decodeStr ts with
  | none => none
  | some (s, ts1) =>
    match decodeAttrValue ts1 with
    | none => none
    | some (v, ts2) => some ((s, v), ts2)

def decodeValueInfo (ts : List Tok) : Option (ValueInfo × List Tok) :=
  match decodeStr ts with
  | none => none
  | some (nm, ts1) =>
    match decodeDataType ts1 with
    | none => none
    | some (dt, ts2) =>
      match decodeList decodeNat ts2 with
      | none => none
      | some (sh, ts3) => some (⟨nm, dt, sh⟩, ts3)

def decodeNode (ts : List Tok) : Option (Node × List Tok) :=
  match decodeStr ts with
  | none => none
  | some (op, ts1) =>
    match decodeList decodeStr ts1 with
    | none => none
    | some (inp, ts2) =>
      match decodeList decodeStr ts2 with
      | none => none
      | some (outp, ts3) =>
        match decodeStr ts3 with
        | none => none
        | some (nm, ts4) =>
          match decodeList decodeAttr ts4 with
          | none => none
          | some (at5, ts5) => some (⟨op, inp, outp, nm, at5⟩, ts5)

def decodeGraph (ts : List Tok) : Option (Graph × List Tok) :=
  match decodeList decodeNode ts with
  | none => none
  | some (nds, ts1) =>
    match decodeStr ts1 with
    | none => none
    | some (nm, ts2) =>
      match decodeList decodeValueInfo ts2 with
      | none => none
      | some (gin, ts3) =>
        match decodeList decodeValueInfo ts3 with
        | none => none
        | some (gout, ts4) =>
          match decodeList decodeValueInfo ts4 with
          | none => none
          | some (gvi, ts5) => some (⟨nds, nm, gin, gout, gvi⟩, ts5)

/-- Modelled from the spec: onnx.save, to the persisted token stream. -/
def save (g : Graph) : List Tok := encodeGraph g

/-- Modelled from the spec: onnx.load; accepts exactly a whole-graph stream. -/
def load (ts : List Tok) : Option Graph :=
  match decodeGraph ts with
  | some (g, []) => some g
  | _ => none

/-! ## Topological well-formedness

The spec's data-model invariant: a node appears after all nodes producing its
inputs, every tensor has at most one producer, and graph inputs are produced
by no node. -/

/-- Whether tensor t is produced by one of the first k nodes. -/
def produced_before (nodes : List Node) (k : Nat) (t : String) : Bool :=
  (nodes.take k).any (fun n => n.output.contains t)

/-- The topological-order invariant: every input of the k-th node is a graph
input or an output of a strictly earlier node. -/
def topo_ordered (g : Graph) : Bool :=
  (List.range g.node.length).all (fun k =>
    match g.node[k]? with
    | some n => n.input.all (fun t =>
        g.input.any (fun vi => vi.name == t) || produced_before g.node k t)
    | none => true)

/-- Every tensor has at most one producer, and no designated graph input is
produced by a node. -/
def unique_producers (g : Graph) : Prop :=
  ((g.node.map (fun n => n.output)).flatten).Nodup ∧
    ∀ vi ∈ g.input, ∀ n ∈ g.node, vi.name ∉ n.output

instance (g : Graph) : Decidable (unique_producers g) := by
  unfold unique_producers; infer_instance

/-- A topologically ordered acyclic graph with unique producers. -/
def well_formed (g : Graph) : Prop :=
  topo_ordered g = true ∧ unique_producers g

instance (g : Graph) : Decidable (well_formed g) := by
  unfold well_formed; infer_instance

/-- The all-zeros 4x4 tensor, a concrete input value. -/
def zero_tensor : TensorVal := fun _ _ => 0


lemma EnvAgree.cons {V : Type} {t : String} {E E1 : Env V} (o : String) (v : V)
    (h : EnvAgree t E E1) : EnvAgree t ((o, v) :: E) ((o, v) :: E1) := by
  intro s hs
  by_cases ho : o = s <;> simp [List.lookup_cons, ho, h s hs]

lemma EnvAgree.writes {V : Type} {t : String} (res : V) :
    ∀ (outs : List String) {E E1 : Env V}, EnvAgree t E E1 →
      EnvAgree t (outs.foldl (fun e o => (o, res) :: e) E)
        (outs.foldl (fun e o => (o, res) :: e) E1)
  | [], _, _, h => h
  | o :: outs, _, _, h => EnvAgree.writes res outs (EnvAgree.cons o res h)

/-- Reading a list of tensors that avoids t gives the same result in two
environments agreeing off t. -/
lemma lookupAll_agree {V : Type} {t : String} {E E1 : Env V} (hag : EnvAgree t E E1) :
    ∀ (l : List String), (∀ a ∈ l, a ≠ t) → lookupAll E l = lookupAll E1 l
  | [], _ => rfl
  | a :: l, h => by
    rw [lookupAll, lookupAll, hag a (h a (by simp)),
      lookupAll_agree hag l (fun b hb => h b (by simp [hb]))]

/-- One execution step of a node that does not read t preserves agreement. -/
lemma execNode_agree {V : Type} (backend : String → List V → Option V) {t : String}
    {E E1 : Env V} (hag : EnvAgree t E E1) {n : Node} (hn : t ∉ n.input) :
    OptAgree t (execNode backend E n) (execNode backend E1 n) := by
  unfold execNode
  rw [lookupAll_agree hag n.input (fun a ha hat => hn (hat ▸ ha))]
  cases hm : lookupAll E1 n.input with
  | none => simp [OptAgree, hm]
  | some args =>
    cases hb : backend n.op_type args with
    | none => simp [OptAgree, hm, hb]
    | some res =>
      simpa [OptAgree, hm, hb] using EnvAgree.writes res n.output hag

/-- Executing a node sequence that never reads t preserves agreement. -/
lemma execNodes_agree {V : Type} (backend : String → List V → Option V) {t : String} :
    ∀ (L : List Node) {E E1 : Env V}, (∀ n ∈ L, t ∉ n.input) → EnvAgree t E E1 →
      OptAgree t (execNodes backend L E) (execNodes backend L E1)
  | [], _, _, _, hag => hag
  | n :: L, E, E1, hL, hag => by
    have h1 := execNode_agree backend hag (hL n (by simp))
    unfold execNodes
    cases hEn : execNode backend E n with
    | none =>
      cases hEn1 : execNode backend E1 n with
      | none => trivial
      | some F1 => rw [hEn, hEn1] at h1; exact absurd h1 (by simp [OptAgree])
    | some F =>
      cases hEn1 : execNode backend E1 n with
      | none => rw [hEn, hEn1] at h1; exact absurd h1 (by simp [OptAgree])
      | some F1 =>
        rw [hEn, hEn1] at h1
        exact execNodes_agree backend L (fun m hm => hL m (by simp [hm])) h1

/-- Reading the designated outputs, none of which is t, gives the same result
in two environments agreeing off t. -/
lemma readOutputs_agree {V : Type} {t : String} {F F1 : Env V} (hag : EnvAgree t F F1) :
    ∀ (outs : List ValueInfo), (∀ vi ∈ outs, vi.name ≠ t) →
      readOutputs F outs = readOutputs F1 outs
  | [], _ => rfl
  | vi :: outs, h => by
    rw [readOutputs, readOutputs, hag vi.name (h vi (by simp)),
      readOutputs_agree hag outs (fun w hw => h w (by simp [hw]))]

/-- Executing an appended node sequence threads the environment through the
first part and continues with the second. -/
lemma execNodes_append {V : Type} (backend : String → List V → Option V)
    (L1 L2 : List Node) (E : Env V) :
    execNodes backend (L1 ++ L2) E =
      match execNodes backend L1 E with
      | none => none
      | some E1 => execNodes backend L2 E1 := by
  induction L1 generalizing E with
  | nil => simp [execNodes]
  | cons n L ih =>
    simp only [List.cons_append, execNodes]
    cases execNode backend E n with
    | none => rfl
    | some E1 => exact ih E1

/-- The fused-input computation on an Add(x,y)->t, Add(t,z)->u chain: the
second node's output never occurs among the first node's inputs here, and the
connecting tensor t is removed from the second node's inputs. -/
lemma input_list_chain (x y z t u na1 na2 : String)
    (hzt : z ≠ t) (hxu : x ≠ u) (hyu : y ≠ u) :
    input_list (Node.mk "Add" [x, y] [t] na1 [], Node.mk "Add" [t, z] [u] na2 []) =
      [x, y, z] := by
  simp [input_list, List.filter_cons, hxu, hyu, hzt]

/-- Executing the chained adder pair and executing the fused Sum node from the
same environment either both fail or both succeed with environments agreeing
on every tensor other than the connecting tensor t. -/
lemma fusion_step (x y z t u na1 na2 ns : String)
    (hzt : z ≠ t) (hxu : x ≠ u) (hyu : y ≠ u) (E : Env TensorVal) :
    OptAgree t
      (execNodes onnx_backend
        [Node.mk "Add" [x, y] [t] na1 [], Node.mk "Add" [t, z] [u] na2 []] E)
      (execNodes onnx_backend
        [Node.mk "Sum"
          (input_list (Node.mk "Add" [x, y] [t] na1 [], Node.mk "Add" [t, z] [u] na2 []))
          [u] ns []] E) := by
  rw [input_list_chain x y z t u na1 na2 hzt hxu hyu]
  have htz : (z == t) = false := beq_eq_false_iff_ne.mpr hzt
  cases hx : List.lookup x E with
  | none =>
    simp [execNodes, execNode, lookupAll, hx, OptAgree]
  | some vx =>
    cases hy : List.lookup y E with
    | none =>
      simp [execNodes, execNode, lookupAll, hx, hy, OptAgree]
    | some vy =>
      cases hz : List.lookup z E with
      | none =>
        simp [execNodes, execNode, lookupAll, List.lookup_cons, hx, hy, hz,
          htz, onnx_backend, OptAgree]
      | some vz =>
        simp only [execNodes, execNode, lookupAll, List.lookup_cons, hx, hy, hz,
          htz, beq_self_eq_true, onnx_backend, List.foldl, OptAgree]
        intro s hs
        have hst : (s == t) = false := beq_eq_false_iff_ne.mpr hs
        cases hsu : s == u with
        | true => simp [List.lookup_cons, hsu]
        | false => simp [List.lookup_cons, hsu, hst]

/-- Splicing the fused Sum node over the chained adder pair, with any nodes
before and after, yields executions agreeing off the connecting tensor. -/
lemma fusion_execNodes (x y z t u na1 na2 ns : String) (pre post : List Node)
    (hzt : z ≠ t) (hxu : x ≠ u) (hyu : y ≠ u)
    (hpost : ∀ n ∈ post, t ∉ n.input) (E : Env TensorVal) :
    OptAgree t
      (execNodes onnx_backend
        (pre ++ [Node.mk "Add" [x, y] [t] na1 [], Node.mk "Add" [t, z] [u] na2 []] ++ post) E)
      (execNodes onnx_backend
        (pre ++ [Node.mk "Sum"
          (input_list (Node.mk "Add" [x, y] [t] na1 [], Node.mk "Add" [t, z] [u] na2 []))
          [u] ns []] ++ post) E) := by
  rw [List.append_assoc, List.append_assoc, execNodes_append, execNodes_append]
  cases hpre : execNodes onnx_backend pre E with
  | none => trivial
  | some E0 =>
    dsimp only
    rw [execNodes_append, execNodes_append]
    have h1 := fusion_step x y z t u na1 na2 ns hzt hxu hyu E0
    cases hm1 : execNodes onnx_backend
        [Node.mk "Add" [x, y] [t] na1 [], Node.mk "Add" [t, z] [u] na2 []] E0 with
    | none =>
      cases hm2 : execNodes onnx_backend
          [Node.mk "Sum"
            (input_list (Node.mk "Add" [x, y] [t] na1 [], Node.mk "Add" [t, z] [u] na2 []))
            [u] ns []] E0 with
      | none => trivial
      | some F1 => rw [hm1, hm2] at h1; exact absurd h1 (by simp [OptAgree])
    | some F =>
      cases hm2 : execNodes onnx_backend
          [Node.mk "Sum"
            (input_list (Node.mk "Add" [x, y] [t] na1 [], Node.mk "Add" [t, z] [u] na2 []))
            [u] ns []] E0 with
      | none => rw [hm1, hm2] at h1; exact absurd h1 (by simp [OptAgree])
      | some F1 =>
        rw [hm1, hm2] at h1
        exact execNodes_agree onnx_backend post hpost h1

/-- Executing the graph with the chained adder pair and the graph with the
spliced Sum node produces identical output maps, for every input environment,
provided the connecting tensor t has no consumer beyond the second adder and
is not a designated graph output. -/
lemma fusion_execute_equiv (x y z t u na1 na2 ns nm : String) (pre post : List Node)
    (gin gout gvi : List ValueInfo) (E : Env TensorVal)
    (hzt : z ≠ t) (hxu : x ≠ u) (hyu : y ≠ u)
    (hpost : ∀ n ∈ post, t ∉ n.input)
    (hgout : ∀ vi ∈ gout, vi.name ≠ t) :
    execute onnx_backend
      (Graph.mk
        (pre ++ [Node.mk "Add" [x, y] [t] na1 [], Node.mk "Add" [t, z] [u] na2 []] ++ post)
        nm gin gout gvi) E =
      execute onnx_backend
        (Graph.mk
          (pre ++ [Node.mk "Sum"
            (input_list (Node.mk "Add" [x, y] [t] na1 [], Node.mk "Add" [t, z] [u] na2 []))
            [u] ns []] ++ post)
          nm gin gout gvi) E := by
  unfold execute
  by_cases hin : gin.all (fun vi => (List.lookup vi.name E).isSome)
  case neg => simp [hin]
  case pos =>
    simp only [hin, if_true]
    have h1 := fusion_execNodes x y z t u na1 na2 ns pre post hzt hxu hyu hpost E
    cases hm1 : execNodes onnx_backend
        (pre ++ [Node.mk "Add" [x, y] [t] na1 [], Node.mk "Add" [t, z] [u] na2 []] ++ post)
        E with
    | none =>
      cases hm2 : execNodes onnx_backend
          (pre ++ [Node.mk "Sum"
            (input_list (Node.mk "Add" [x, y] [t] na1 [], Node.mk "Add" [t, z] [u] na2 []))
            [u] ns []] ++ post) E with
      | none => rfl
      | some F1 => rw [hm1, hm2] at h1; exact absurd h1 (by simp [OptAgree])
    | some F =>
      cases hm2 : execNodes onnx_backend
          (pre ++ [Node.mk "Sum"
            (input_list (Node.mk "Add" [x, y] [t] na1 [], Node.mk "Add" [t, z] [u] na2 []))
            [u] ns []] ++ post) E with
      | none => rw [hm1, hm2] at h1; exact absurd h1 (by simp [OptAgree])
      | some F1 =>
        rw [hm1, hm2] at h1
        exact readOutputs_agree h1 gout hgout

/-- Datatype inference only reads the node list, so any graph with the same
nodes infers the same update. -/
lemma infer_vi_congr (g g1 : Graph) (h : g1.node = g.node) (vi : ValueInfo) :
    infer_vi g1 vi = infer_vi g vi := by
  unfold infer_vi find_producer
  simp only [h]

lemma op_implied_dtype_idem (op : String) (d : DataType) :
    op_implied_dtype op (op_implied_dtype op d) = op_implied_dtype op d := by
  by_cases h : op = "MultiThreshold" <;> simp [op_implied_dtype, h]

/-- A second datatype-inference update of a tensor changes nothing. -/
lemma infer_vi_idem (g : Graph) (vi : ValueInfo) :
    infer_vi g (infer_vi g vi) = infer_vi g vi := by
  unfold infer_vi
  cases hp : find_producer ⟨g⟩ vi.name with
  | none => simp [hp]
  | some n => simp [hp, op_implied_dtype_idem]

/-- A second sweep of datatype inference returns the same graph. -/
lemma inferGraph_idem (g : Graph) : inferGraph (inferGraph g) = inferGraph g := by
  have hfix : ∀ vi : ValueInfo, infer_vi (inferGraph g) (infer_vi g vi) = infer_vi g vi :=
    fun vi => (infer_vi_congr g (inferGraph g) rfl (infer_vi g vi)).trans (infer_vi_idem g vi)
  have ho : ((inferGraph g).output).map (infer_vi (inferGraph g)) = (inferGraph g).output := by
    show (g.output.map (infer_vi g)).map (infer_vi (inferGraph g)) = g.output.map (infer_vi g)
    rw [List.map_map]
    exact List.map_congr_left (fun vi _ => hfix vi)
  have hv : ((inferGraph g).value_info).map (infer_vi (inferGraph g)) =
      (inferGraph g).value_info := by
    show (g.value_info.map (infer_vi g)).map (infer_vi (inferGraph g)) =
      g.value_info.map (infer_vi g)
    rw [List.map_map]
    exact List.map_congr_left (fun vi _ => hfix vi)
  show ({ inferGraph g with
    output := ((inferGraph g).output).map (infer_vi (inferGraph g))
    value_info := ((inferGraph g).value_info).map (infer_vi (inferGraph g)) } : Graph) =
    inferGraph g
  rw [ho, hv]

/-- A second application of the datatype-inference pass returns the same graph
and reports no change. -/
lemma InferDataTypes_idem (g : Graph) :
    InferDataTypes (InferDataTypes g).1 = ((InferDataTypes g).1, false) := by
  show (inferGraph (inferGraph g), decide (inferGraph (inferGraph g) ≠ inferGraph g)) =
    (inferGraph g, false)
  rw [inferGraph_idem g]
  simp

/-- A second sweep of the dead-tensor cleanup returns the same graph. -/
lemma cleanGraph_idem (g : Graph) : cleanGraph (cleanGraph g) = cleanGraph g := by
  have halive : ∀ t, tensor_alive (cleanGraph g) t = tensor_alive g t := fun _ => rfl
  have hv : ((cleanGraph g).value_info).filter (fun vi => tensor_alive (cleanGraph g) vi.name) =
      (cleanGraph g).value_info := by
    show (g.value_info.filter (fun vi => tensor_alive g vi.name)).filter
      (fun vi => tensor_alive (cleanGraph g) vi.name) =
      g.value_info.filter (fun vi => tensor_alive g vi.name)
    simp only [halive]
    rw [List.filter_filter]
    simp
  show ({ cleanGraph g with
    value_info := ((cleanGraph g).value_info).filter
      (fun vi => tensor_alive (cleanGraph g) vi.name) } : Graph) = cleanGraph g
  rw [hv]

/-- A second application of the dead-tensor cleanup pass returns the same
graph and reports no change. -/
lemma RemoveDeadTensors_idem (g : Graph) :
    RemoveDeadTensors (RemoveDeadTensors g).1 = ((RemoveDeadTensors g).1, false) := by
  show (cleanGraph (cleanGraph g), decide (cleanGraph (cleanGraph g) ≠ cleanGraph g)) =
    (cleanGraph g, false)
  rw [cleanGraph_idem g]
  simp

/-! ## The accumulating loops are filters -/

/-- An append-if loop over a list accumulates exactly the filtered elements. -/
lemma foldl_if_append {α : Type} (p : α → Prop) [DecidablePred p] :
    ∀ (l acc : List α),
      l.foldl (fun a x => if p x then a ++ [x] else a) acc = acc ++ l.filter (fun x => p x)
  | [], acc => by simp
  | x :: l, acc => by
    by_cases hx : p x <;>
      simp [List.foldl_cons, hx, foldl_if_append p l, List.filter_cons]

/-- An append-if loop that records the image of each kept element accumulates
the mapped filter. -/
lemma foldl_if_append_map {α β : Type} (p : α → Prop) [DecidablePred p] (f : α → β) :
    ∀ (l : List α) (acc : List β),
      l.foldl (fun a x => if p x then a ++ [f x] else a) acc =
        acc ++ (l.filter (fun x => p x)).map f
  | [], acc => by simp
  | x :: l, acc => by
    by_cases hx : p x <;>
      simp [List.foldl_cons, hx, foldl_if_append_map p f l, List.filter_cons]

/-- identify_adder_nodes selects, preserving order, the Add-typed nodes. -/
lemma identify_adder_nodes_eq_filter (m : ModelWrapper) :
    identify_adder_nodes m = m.graph.node.filter (fun n => n.op_type = "Add") := by
  have h := foldl_if_append (fun n : Node => n.op_type = "Add") m.graph.node []
  simpa [identify_adder_nodes] using h

/-- adder_pair pairs the given node with each Add-typed direct successor. -/
lemma adder_pair_eq_filter_map (m : ModelWrapper) (n : Node) :
    adder_pair m n =
      ((find_direct_successors m n).filter (fun s => s.op_type = "Add")).map
        (fun s => (n, s)) := by
  have h := foldl_if_append_map (fun s : Node => s.op_type = "Add") (fun s => (n, s))
    (find_direct_successors m n) []
  simpa [adder_pair] using h

/-- A pair returned by adder_pair links the node to a successor that consumes
one of its outputs. -/
lemma adder_pair_mem_consumes {m : ModelWrapper} {n n2 : Node}
    (h : (n, n2) ∈ adder_pair m n) : ∃ t, t ∈ n.output ∧ t ∈ n2.input := by
  rw [adder_pair_eq_filter_map] at h
  rcases List.mem_map.mp h with ⟨s, hs, heq⟩
  injection heq with h1 h2
  subst h2
  have hs2 : s ∈ find_direct_successors m n := List.mem_of_mem_filter hs
  rw [find_direct_successors, List.mem_dedup] at hs2
  rcases List.mem_flatMap.mp hs2 with ⟨t, ht, hc⟩
  rw [find_consumers] at hc
  have hcont := List.of_mem_filter hc
  exact ⟨t, ht, by simpa using hcont⟩

/-- If tensor t is produced among the first k nodes there is a producing index
below k. -/
lemma produced_before_exists {nodes : List Node} {k : Nat} {t : String}
    (h : produced_before nodes k t = true) :
    ∃ j, ∃ hj : j < nodes.length, j < k ∧ t ∈ (nodes.get ⟨j, hj⟩).output := by
  rw [produced_before, List.any_eq_true] at h
  rcases h with ⟨n, hn, hcont⟩
  rcases List.mem_iff_getElem.mp hn with ⟨j, hjlen, hjeq⟩
  have hlt : j < min k nodes.length := by rwa [List.length_take] at hjlen
  have hjk : j < k := lt_of_lt_of_le hlt (min_le_left _ _)
  have hjn : j < nodes.length := lt_of_lt_of_le hlt (min_le_right _ _)
  refine ⟨j, hjn, hjk, ?_⟩
  show t ∈ nodes[j].output
  have hg : (nodes.take k)[j] = nodes[j] := List.getElem_take nodes
  rw [hg] at hjeq
  rw [hjeq]
  simpa using hcont

/-- The topological-order invariant, read off at one index. -/
lemma topo_at {g : Graph} (h : topo_ordered g = true) {i : Nat} (hi : i < g.node.length)
    {t : String} (ht : t ∈ (g.node.get ⟨i, hi⟩).input) :
    (∃ vi ∈ g.input, vi.name = t) ∨ produced_before g.node i t = true := by
  rw [topo_ordered, List.all_eq_true] at h
  have h2 := h i (List.mem_range.mpr hi)
  rw [List.getElem?_eq_getElem hi] at h2
  simp only [List.all_eq_true, Bool.or_eq_true, List.any_eq_true] at h2
  rcases h2 t ht with ⟨vi, hvi, hb⟩ | hp
  · exact Or.inl ⟨vi, hvi, by simpa using hb⟩
  · exact Or.inr hp

/-- With unique producers, two producing indices of the same tensor agree. -/
lemma unique_producer_eq {g : Graph} (hu : unique_producers g)
    {i j : Nat} (hi : i < g.node.length) (hj : j < g.node.length) {t : String}
    (hti : t ∈ (g.node.get ⟨i, hi⟩).output) (htj : t ∈ (g.node.get ⟨j, hj⟩).output) :
    i = j := by
  rcases hu with ⟨hnd, -⟩
  rw [List.nodup_flatten] at hnd
  rcases hnd with ⟨-, hpw⟩
  rw [List.pairwise_iff_getElem] at hpw
  by_contra hne
  rcases Nat.lt_or_ge i j with hlt | hge
  · have hd := hpw i j (by simpa using hi) (by simpa using hj) hlt
    rw [List.getElem_map, List.getElem_map] at hd
    exact hd hti htj
  · have hlt2 : j < i := by omega
    have hd := hpw j i (by simpa using hj) (by simpa using hi) hlt2
    rw [List.getElem_map, List.getElem_map] at hd
    exact hd htj hti

/-- In a well-formed graph a tensor's producer sits strictly before any of its
consumers. -/
lemma producer_before_consumer {g : Graph} (hw : well_formed g)
    {i1 i2 : Nat} (h1 : i1 < g.node.length) (h2 : i2 < g.node.length) {t : String}
    (ht1 : t ∈ (g.node.get ⟨i1, h1⟩).output) (ht2 : t ∈ (g.node.get ⟨i2, h2⟩).input) :
    i1 < i2 := by
  rcases hw with ⟨htopo, huniq⟩
  rcases topo_at htopo h2 ht2 with ⟨vi, hvi, hname⟩ | hp
  · exact absurd ht1 (hname ▸ huniq.2 vi hvi _ (List.get_mem g.node i1 h1))
  · rcases produced_before_exists hp with ⟨j, hj, hjk, htj⟩
    have := unique_producer_eq huniq h1 hj ht1 htj
    omega

/-! ## Round-trip of the persisted format

Each decoder consumes exactly the corresponding encoding off the front of the
stream and returns the encoded value together with the untouched tail. -/

lemma decodeDataType_encode (d : DataType) (rest : List Tok) :
    decodeDataType (encodeDataType d ++ rest) = some (d, rest) := by
  cases d <;> rfl

lemma decodeListN_encodeList {α : Type} {dec : List Tok → Option (α × List Tok)}
    {enc : α → List Tok} (h : ∀ (a : α) (r : List Tok), dec (enc a ++ r) = some (a, r)) :
    ∀ (xs : List α) (rest : List Tok),
      decodeListN dec xs.length (xs.flatMap enc ++ rest) = some (xs, rest)
  | [], rest => rfl
  | x :: xs, rest => by
    rw [List.flatMap_cons, List.append_assoc, List.length_cons]
    show (match dec (enc x ++ (xs.flatMap enc ++ rest)) with
      | none => none
      | some (a, ts1) =>
        match decodeListN dec xs.length ts1 with
        | none => none
        | some (as, ts2) => some (a :: as, ts2)) = some (x :: xs, rest)
    rw [h x (xs.flatMap enc ++ rest)]
    dsimp only
    rw [decodeListN_encodeList h xs rest]

lemma decodeList_encodeList {α : Type} {dec : List Tok → Option (α × List Tok)}
    {enc : α → List Tok} (h : ∀ (a : α) (r : List Tok), dec (enc a ++ r) = some (a, r))
    (xs : List α) (rest : List Tok) :
    decodeList dec (encodeList enc xs ++ rest) = some (xs, rest) := by
  show decodeList dec (Tok.tnat xs.length :: (xs.flatMap enc ++ rest)) = some (xs, rest)
  rw [decodeList]
  show decodeListN dec xs.length (xs.flatMap enc ++ rest) = some (xs, rest)
  exact decodeListN_encodeList h xs rest

lemma decodeAttrValue_encode (v : AttrValue) (rest : List Tok) :
    decodeAttrValue (encodeAttrValue v ++ rest) = some (v, rest) := by
  cases v with
  | intVal i => rfl
  | floatVal q => rfl
  | stringVal s => rfl
  | intListVal l =>
    show (decodeList decodeInt (encodeList encodeInt l ++ rest)).map _ = _
    rw [decodeList_encodeList (fun a r => rfl) l rest]
    rfl
  | floatListVal l =>
    show (decodeList decodeRat (encodeList encodeRat l ++ rest)).map _ = _
    rw [decodeList_encodeList (fun a r => rfl) l rest]
    rfl

lemma decodeAttr_encode (a : String × AttrValue) (rest : List Tok) :
    decodeAttr (encodeAttr a ++ rest) = some (a, rest) := by
  obtain ⟨s, v⟩ := a
  show decodeAttr (Tok.tstr s :: (encodeAttrValue v ++ rest)) = some ((s, v), rest)
  rw [decodeAttr]
  show (match decodeAttrValue (encodeAttrValue v ++ rest) with
    | none => none
    | some (v1, ts2) => some ((s, v1), ts2)) = some ((s, v), rest)
  rw [decodeAttrValue_encode v rest]

lemma decodeValueInfo_encode (vi : ValueInfo) (rest : List Tok) :
    decodeValueInfo (encodeValueInfo vi ++ rest) = some (vi, rest) := by
  obtain ⟨nm, dt, sh⟩ := vi
  simp only [encodeValueInfo, List.append_assoc]
  show decodeValueInfo
    (Tok.tstr nm :: (encodeDataType dt ++ (encodeList encodeNat sh ++ rest))) =
    some (⟨nm, dt, sh⟩, rest)
  unfold decodeValueInfo
  dsimp only [decodeStr]
  rw [decodeDataType_encode dt]
  dsimp only
  rw [decodeList_encodeList (fun a r => rfl) sh rest]

lemma decodeNode_encode (n : Node) (rest : List Tok) :
    decodeNode (encodeNode n ++ rest) = some (n, rest) := by
  obtain ⟨op, inp, outp, nm, at0⟩ := n
  simp only [encodeNode, List.append_assoc]
  show decodeNode (Tok.tstr op :: (encodeList encodeStr inp ++
    (encodeList encodeStr outp ++ (Tok.tstr nm :: (encodeList encodeAttr at0 ++ rest))))) =
    some (⟨op, inp, outp, nm, at0⟩, rest)
  unfold decodeNode
  dsimp only [decodeStr]
  rw [decodeList_encodeList (fun a r => rfl) inp]
  dsimp only
  rw [decodeList_encodeList (fun a r => rfl) outp]
  dsimp only [decodeStr]
  rw [decodeList_encodeList decodeAttr_encode at0 rest]

lemma decodeGraph_encode (g : Graph) (rest : List Tok) :
    decodeGraph (encodeGraph g ++ rest) = some (g, rest) := by
  obtain ⟨nds, nm, gin, gout, gvi⟩ := g
  simp only [encodeGraph, List.append_assoc]
  show decodeGraph (encodeList encodeNode nds ++ (Tok.tstr nm ::
    (encodeList encodeValueInfo gin ++ (encodeList encodeValueInfo gout ++
      (encodeList encodeValueInfo gvi ++ rest))))) =
    some (⟨nds, nm, gin, gout, gvi⟩, rest)
  unfold decodeGraph
  rw [decodeList_encodeList decodeNode_encode nds]
  dsimp only [decodeStr]
  rw [decodeList_encodeList decodeValueInfo_encode gin]
  dsimp only
  rw [decodeList_encodeList decodeValueInfo_encode gout]
  dsimp only
  rw [decodeList_encodeList decodeValueInfo_encode gvi]

/-! ## Claim theorems: adder identification, fusion inputs, pair detection -/

/-- C1: a structural rewrite replacing a chained adder pair by a single Sum
node preserves execution: for every placement of the chain in a graph whose
precondition holds (the connecting tensor has no consumer beyond the second
adder and is not a graph output), and for every input environment, the
rewritten graph executes to the same output map; in particular the example
graph of the notebook, rewritten by the fusion, executes identically on all
inputs, both matching the notebook's reference function. -/
theorem rewrite_preserves_execution :
    (∀ (x y z t u na1 na2 ns nm : String) (pre post : List Node)
        (gin gout gvi : List ValueInfo) (E : Env TensorVal),
      z ≠ t → x ≠ u → y ≠ u →
      (∀ n ∈ post, t ∉ n.input) →
      (∀ vi ∈ gout, vi.name ≠ t) →
      execute onnx_backend
        (Graph.mk
          (pre ++ [Node.mk "Add" [x, y] [t] na1 [], Node.mk "Add" [t, z] [u] na2 []] ++ post)
          nm gin gout gvi) E =
        execute onnx_backend
          (Graph.mk
            (pre ++ [Node.mk "Sum"
              (input_list (Node.mk "Add" [x, y] [t] na1 [], Node.mk "Add" [t, z] [u] na2 []))
              [u] ns []] ++ post)
            nm gin gout gvi) E) ∧
    (∀ v1 v2 v3 : TensorVal,
      execute onnx_backend simple_graph1 [("in1", v1), ("in2", v2), ("in3", v3)] =
        execute onnx_backend simple_graph [("in1", v1), ("in2", v2), ("in3", v3)] ∧
      execute onnx_backend simple_graph [("in1", v1), ("in2", v2), ("in3", v3)] =
        some [("out1", expected_output v1 v2 v3)]) :=
  ⟨fun x y z t u na1 na2 ns nm pre post gin gout gvi E hzt hxu hyu hpost hgout =>
      fusion_execute_equiv x y z t u na1 na2 ns nm pre post gin gout gvi E
        hzt hxu hyu hpost hgout,
    fun _ _ _ => ⟨rfl, rfl⟩⟩

/-- Witness: the rewrite-equivalence theorem applied to the example graph's
own decomposition, with the all-zeros input assignment. -/
theorem rewrite_preserves_execution_witness :
    (("in3" : String) ≠ "sum1" ∧ ("in1" : String) ≠ "sum2" ∧ ("in2" : String) ≠ "sum2" ∧
      (∀ n ∈ [Abs_node, Add3_node, Round_node], "sum1" ∉ n.input) ∧
      (∀ vi ∈ simple_graph.output, vi.name ≠ "sum1")) ∧
    execute onnx_backend
      (Graph.mk
        ([] ++ [Node.mk "Add" ["in1", "in2"] ["sum1"] "Add1" [],
          Node.mk "Add" ["sum1", "in3"] ["sum2"] "Add2" []] ++ [Abs_node, Add3_node, Round_node])
        "simple_graph" simple_graph.input simple_graph.output simple_graph.value_info)
      [("in1", zero_tensor), ("in2", zero_tensor), ("in3", zero_tensor)] =
      execute onnx_backend
        (Graph.mk
          ([] ++ [Node.mk "Sum"
            (input_list (Node.mk "Add" ["in1", "in2"] ["sum1"] "Add1" [],
              Node.mk "Add" ["sum1", "in3"] ["sum2"] "Add2" []))
            ["sum2"] "Sum" []] ++ [Abs_node, Add3_node, Round_node])
          "simple_graph" simple_graph.input simple_graph.output simple_graph.value_info)
        [("in1", zero_tensor), ("in2", zero_tensor), ("in3", zero_tensor)] :=
  ⟨⟨by decide, by decide, by decide, by decide, by decide⟩,
    rewrite_preserves_execution.1 "in1" "in2" "in3" "sum1" "sum2" "Add1" "Add2" "Sum"
      "simple_graph" [] [Abs_node, Add3_node, Round_node]
      simple_graph.input simple_graph.output simple_graph.value_info
      [("in1", zero_tensor), ("in2", zero_tensor), ("in3", zero_tensor)]
      (by decide) (by decide) (by decide) (by decide) (by decide)⟩

/-- C4: identify_adder_nodes returns, in graph node order, exactly the nodes
whose operator type is Add; on the example graph it returns exactly Add1,
Add2, Add3 and no others. -/
theorem identify_adder_nodes_spec :
    (∀ m : ModelWrapper,
      identify_adder_nodes m = m.graph.node.filter (fun n => n.op_type = "Add")) ∧
    identify_adder_nodes finn_model = [Add1_node, Add2_node, Add3_node] :=
  ⟨identify_adder_nodes_eq_filter, by decide⟩

/-- C2: the fused node's input list is the first matched node's inputs minus
the second node's output, followed by the second node's inputs minus the inner
connecting tensor; for the Add1+Add2 chain this is exactly in1, in2, in3 in
that order, and the fused node's sole output is sum2, the original output of
Add2. -/
theorem fused_node_inputs_and_output :
    input_list (Add1_node, Add2_node) = ["in1", "in2", "in3"] ∧
    Sum_node.input = ["in1", "in2", "in3"] ∧
    Sum_node.output = ["sum2"] ∧
    Add2_node.output = ["sum2"] := by decide

/-- C3: pair detection over the example graph finds exactly the adjacent
chained pair (Add1, Add2); Add2 and Add3 contribute no pair, and the fusion
leaves Add3 in place in the rewritten graph. -/
theorem pair_detection_only_chained_pair :
    add_pairs_found finn_model = [(Add1_node, Add2_node)] ∧
    adder_pair finn_model Add2_node = [] ∧
    adder_pair finn_model Add3_node = [] ∧
    simple_graph1.node = [Sum_node, Abs_node, Add3_node, Round_node] := by decide

/-- C8: adder_pair returns one pair (node, s) for every Add-typed direct
successor s, never inspecting the given node's own operator type; applied to
the Abs node, whose successor Add3 is an adder, it returns a pair whose first
element is not an adder. -/
theorem adder_pair_ignores_own_op_type :
    (∀ (m : ModelWrapper) (n : Node),
      adder_pair m n =
        ((find_direct_successors m n).filter (fun s => s.op_type = "Add")).map
          (fun s => (n, s))) ∧
    adder_pair finn_model Abs_node = [(Abs_node, Add3_node)] ∧
    Abs_node.op_type ≠ "Add" :=
  ⟨adder_pair_eq_filter_map, by decide, by decide⟩

/-- C5: every modelled normalization pass is idempotent: for every graph, a
second application returns the graph of the first application unchanged
together with changed=false. -/
theorem normalization_passes_idempotent (g : Graph) :
    InferDataTypes (InferDataTypes g).1 = ((InferDataTypes g).1, false) ∧
    RemoveDeadTensors (RemoveDeadTensors g).1 = ((RemoveDeadTensors g).1, false) :=
  ⟨InferDataTypes_idem g, RemoveDeadTensors_idem g⟩

/-- C6: on the MLP model the global output datatype starts as the generic
float default, its producer is a MultiThreshold node, one application of the
datatype-inference pass resolves it to the bipolar type, and a second
application leaves the resolved graph unchanged with changed=false. -/
theorem infer_datatypes_resolves_output :
    get_tensor_datatype ⟨mlp_graph⟩ "global_out" = some DataType.FLOAT32 ∧
    (find_producer ⟨mlp_graph⟩ "global_out").map (fun n => n.op_type) =
      some "MultiThreshold" ∧
    get_tensor_datatype ⟨(InferDataTypes mlp_graph).1⟩ "global_out" =
      some DataType.BIPOLAR ∧
    InferDataTypes (InferDataTypes mlp_graph).1 = ((InferDataTypes mlp_graph).1, false) :=
  ⟨by decide, by decide, by decide, InferDataTypes_idem mlp_graph⟩

/-- C9: padding precedes the bipolar rescaling, so every padded position is
presented to the model as -1: a 593-element binary row preprocesses to a
600-element vector with every value in the bipolar pair and the value -1 at
every padded index. -/
theorem padding_before_rescale (xs : List Int)
    (hlen : xs.length = 593) (hbin : ∀ x ∈ xs, x = 0 ∨ x = 1) :
    (finn_preprocess xs).length = 600 ∧
    (∀ y ∈ finn_preprocess xs, y = -1 ∨ y = 1) ∧
    (∀ i : Nat, 593 ≤ i → i < 600 → (finn_preprocess xs).getD i 0 = -1) := by
  refine ⟨by simp [finn_preprocess, to_bipolar, pad_row, hlen], ?_, ?_⟩
  · intro y hy
    simp only [finn_preprocess, to_bipolar, pad_row, List.map_append, List.mem_append,
      List.mem_map] at hy
    rcases hy with ⟨x, hx, hxy⟩ | ⟨x, hx, hxy⟩
    · rcases hbin x hx with h0 | h1
      · exact Or.inl (by omega)
      · exact Or.inr (by omega)
    · have hx0 : x = 0 := List.eq_of_mem_replicate hx
      exact Or.inl (by omega)
  · intro i h1 h2
    simp only [finn_preprocess, to_bipolar, pad_row, List.map_append]
    have hge : (xs.map (fun x => 2 * x - 1)).length ≤ i := by
      rw [List.length_map, hlen]; omega
    have hi : i - (xs.map (fun x => 2 * x - 1)).length < 7 := by
      rw [List.length_map, hlen]; omega
    rw [List.getD, List.get?_eq_getElem?, List.getElem?_append_right hge,
      List.map_replicate, List.getElem?_replicate]
    rw [List.length_map] at hi
    simp [hi]

/-- Witness: the all-zeros 593-element row preprocesses to the all-minus-one
600-element vector. -/
theorem padding_before_rescale_witness :
    ((List.replicate 593 (0 : Int)).length = 593 ∧
      (∀ x ∈ List.replicate 593 (0 : Int), x = 0 ∨ x = 1)) ∧
    ((finn_preprocess (List.replicate 593 0)).length = 600 ∧
      (∀ y ∈ finn_preprocess (List.replicate 593 0), y = -1 ∨ y = 1) ∧
      (∀ i : Nat, 593 ≤ i → i < 600 →
        (finn_preprocess (List.replicate 593 0)).getD i 0 = -1)) :=
  ⟨⟨by rw [List.length_replicate], fun x hx => Or.inl (List.eq_of_mem_replicate hx)⟩,
    padding_before_rescale (List.replicate 593 0) (by rw [List.length_replicate])
      (fun x hx => Or.inl (List.eq_of_mem_replicate hx))⟩

/-- C10: for a pair drawn by adder_pair from a well-formed (topologically
ordered, unique-producer) graph, the filter applied to the first node's inputs
(discarding inputs equal to the second node's output) discards nothing — a
node's input is never produced by its successor — so the fused node inherits
all of the first node's inputs followed by exactly the second node's inputs
other than the connecting tensor. -/
theorem fused_input_filter_discards_nothing
    (g : Graph) (i1 i2 : Nat) (h1 : i1 < g.node.length) (h2 : i2 < g.node.length)
    (n1 n2 : Node) (hw : well_formed g)
    (hn1 : g.node.get ⟨i1, h1⟩ = n1) (hn2 : g.node.get ⟨i2, h2⟩ = n2)
    (hpair : (n1, n2) ∈ adder_pair ⟨g⟩ n1) (hout : n2.output ≠ []) :
    n1.input.filter (fun s => s ≠ n2.output.headD "") = n1.input ∧
    input_list (n1, n2) =
      n1.input ++ n2.input.filter (fun s => s ≠ n1.output.headD "") := by
  rcases adder_pair_mem_consumes hpair with ⟨t, ht1, ht2⟩
  have hi12 : i1 < i2 :=
    producer_before_consumer hw h1 h2 (hn1 ▸ ht1) (hn2 ▸ ht2)
  have hkeep : ∀ s ∈ n1.input, s ≠ n2.output.headD "" := by
    intro s hs heq
    have hhead : n2.output.headD "" ∈ n2.output := by
      cases hno : n2.output with
      | nil => exact absurd hno hout
      | cons a l => simp
    have hs2 : s ∈ n2.output := heq ▸ hhead
    have hi21 : i2 < i1 :=
      producer_before_consumer hw h2 h1 (hn2 ▸ hs2) (hn1 ▸ hs)
    omega
  have hfil : n1.input.filter (fun s => s ≠ n2.output.headD "") = n1.input := by
    rw [List.filter_eq_self]
    intro s hs
    simpa using hkeep s hs
  exact ⟨hfil, by rw [input_list, hfil]⟩

/-- Witness: the adjacent chained pair (Add1, Add2) of the example graph,
which is well-formed, keeps all of Add1's inputs through the filter. -/
theorem fused_input_filter_discards_nothing_witness :
    (well_formed simple_graph ∧
      simple_graph.node.get ⟨0, by decide⟩ = Add1_node ∧
      simple_graph.node.get ⟨1, by decide⟩ = Add2_node ∧
      (Add1_node, Add2_node) ∈ adder_pair ⟨simple_graph⟩ Add1_node ∧
      Add2_node.output ≠ []) ∧
    (Add1_node.input.filter (fun s => s ≠ Add2_node.output.headD "") = Add1_node.input ∧
      input_list (Add1_node, Add2_node) =
        Add1_node.input ++ Add2_node.input.filter (fun s => s ≠ Add1_node.output.headD "")) :=
  ⟨⟨by decide, by decide, by decide, by decide, by decide⟩,
    fused_input_filter_discards_nothing simple_graph 0 1 (by decide) (by decide)
      Add1_node Add2_node (by decide) (by decide) (by decide) (by decide) (by decide)⟩

/-- C7: serialization round-trip: saving any graph to the persisted stream and
reloading it reproduces the graph exactly — node order, tensor names, shapes,
datatypes and attribute values included. -/
theorem save_load_roundtrip (g : Graph) : load (save g) = some g := by
  have h := decodeGraph_encode g []
  rw [List.append_nil] at h
  unfold load save
  rw [h]

end EdgeAI
